import Mathlib

/-!
Shallow embedding of `src/todo.py` (a terminal todo-list manager backed by a
shared JSON file) together with proofs about its persistence protocol,
entity codec, group model and selection model.

Modelling conventions:
* Python strings are modelled as lists of characters (`Str`).
* Python's stable `list.sort(key=...)` is modelled by the stable
  `List.insertionSort` over the embedded key order (any two stable
  comparison sorts agree pointwise).
* `uuid.uuid4()` calls are modelled by an explicit supply `Nat → String` of
  fresh identifiers, indexed by the position of the record being backfilled.
* The todo file is `Option (List Rec)`: `none` is "file does not exist".
* A JSON record's `id` field is `Option String` (`none` = absent).
-/

/-- Characters removed by Python's `str.strip()` (ASCII whitespace). -/
def isPySpace (c : Char) : Bool :=
  c = ' ' || c = '\t' || c = '\n' || c = '\r' || c = Char.ofNat 11 || c = Char.ofNat 12

/-- A Python string, modelled as its list of characters. -/
abbrev Str := List Char

/-- Python's `s.strip()`: remove leading and trailing whitespace. -/
def pyStrip (s : Str) : Str :=
  ((s.dropWhile isPySpace).reverse.dropWhile isPySpace).reverse

/-- Python's `s.lower()` (ASCII case folding, which covers the stored tasks). -/
def lowerStr (s : Str) : Str := s.map Char.toLower

/-- Python's `s.split(':', 1)`: `some (before, after)` when a colon occurs in
`s` (the test `':' in s` is true exactly when this returns `some`), and `none`
when there is no colon. -/
def splitColon : Str → Option (Str × Str)
  | [] => none
  | c :: cs =>
    if c = ':' then some ([], cs)
    else
      match splitColon cs with
      | some (a, b) => some (c :: a, b)
      | none => none

/-- The sentinel group name `'__ungrouped__'` used throughout `todo.py`. -/
def ungroupedS : Str := ['_', '_', 'u', 'n', 'g', 'r', 'o', 'u', 'p', 'e', 'd', '_', '_']

/-- The high-priority marker `'!! '`. -/
def hiMark : Str := ['!', '!', ' ']

/-- The low-priority marker `'! '`. -/
def loMark : Str := ['!', ' ']

/-- Priority extraction (`todo.py` lines 94-102 and equivalents):
`task.startswith('!! ')` gives `2`, else `task.startswith('! ')` gives `1`,
else `0`. -/
def priorityOf (task : Str) : Nat :=
  if hiMark.isPrefixOf task then 2 else if loMark.isPrefixOf task then 1 else 0

/-- Remove the priority marker: `'!! '` is checked first, then `'! '`
(`todo.py` lines 46-49 and equivalents). -/
def stripPriority (task : Str) : Str :=
  if hiMark.isPrefixOf task then task.drop 3
  else if loMark.isPrefixOf task then task.drop 2
  else task

/-- Embedding of `todo.py` lines 66-78, `get_todo_group`: strip the priority marker, then
the stripped text before the first colon, or the ungrouped sentinel. -/
def get_todo_group_task (task : Str) : Str :=
  match splitColon (stripPriority task) with
  | some (a, _) => pyStrip a
  | none => ungroupedS

/-- The decoded display text of a task (`todo.py` lines 283-295): the stripped
remainder after the first colon for grouped tasks, the whole priority-stripped
text for ungrouped ones. -/
def decodeText (task : Str) : Str :=
  match splitColon (stripPriority task) with
  | some (_, b) => pyStrip b
  | none => stripPriority task

/-- A Python sort-key tuple `(tier, group, text)` as built by `get_sort_key`. -/
abbrev SKey := Nat × Str × Str

/-- A persisted todo record: `id` (absent/null modelled as `none`), the encoded
`task` string, the `done` flag, and any unknown extra JSON fields (never
inspected by the program, modelled opaquely as key/value pairs). -/
structure Rec where
  id : Option String
  task : Str
  done : Bool
  extra : List (String × Str)
deriving DecidableEq, Repr

/-- Embedding of `todo.py` lines 43-59, `get_sort_key`: strip the priority marker; a task
with a colon maps to `(0, lower (strip group), lower (strip rest))`, any other
task to `(1, '', lower task)`. -/
def get_sort_key (r : Rec) : SKey :=
  match splitColon (stripPriority r.task) with
  | some (a, b) => (0, lowerStr (pyStrip a), lowerStr (pyStrip b))
  | none => (1, [], lowerStr (stripPriority r.task))

/-- Python's `<` on strings: strict code-point lexicographic order. -/
def strLt : Str → Str → Bool
  | [], [] => false
  | [], _ :: _ => true
  | _ :: _, [] => false
  | c :: cs, d :: ds =>
    if c.toNat < d.toNat then true
    else if d.toNat < c.toNat then false
    else strLt cs ds

/-- Python's `<=` on strings: code-point lexicographic order. -/
def strLe : Str → Str → Bool
  | [], _ => true
  | _ :: _, [] => false
  | c :: cs, d :: ds =>
    if c.toNat < d.toNat then true
    else if d.toNat < c.toNat then false
    else strLe cs ds

/-- Python's `<=` on sort-key tuples: lexicographic comparison. -/
def keyLe : SKey → SKey → Bool
  | (n1, a1, b1), (n2, a2, b2) =>
    if n1 < n2 then true
    else if n2 < n1 then false
    else if strLt a1 a2 then true
    else if strLt a2 a1 then false
    else strLe b1 b2

/-- The ordering on records used to model Python's stable sort by
`get_sort_key` (`merged.sort(key=get_sort_key)`, line 61). -/
def recLe (r1 r2 : Rec) : Prop := keyLe (get_sort_key r1) (get_sort_key r2) = true

instance : DecidableRel recLe := fun r1 r2 =>
  Bool.decEq (keyLe (get_sort_key r1) (get_sort_key r2)) true

/-- Embedding of `todo.py` lines 16-19: assign a fresh id (`uuid.uuid4()`, modelled by the
supply `sup`) to each record missing one. -/
def backfillIds (sup : Nat → String) : Nat → List Rec → List Rec
  | _, [] => []
  | i, r :: rs =>
    (match r.id with
     | none => { r with id := some (sup i) }
     | some _ => r) :: backfillIds sup (i + 1) rs

/-- Embedding of `todo.py` lines 12-21, `load_todos`: an absent file yields `[]`; otherwise
the decoded records with missing ids backfilled. -/
def load_todos (disk : Option (List Rec)) (sup : Nat → String) : List Rec :=
  match disk with
  | some l => backfillIds sup 0 l
  | none => []

/-- The set `our_ids` of ids present in the candidate (`todo.py` line 36). -/
def ourIds (todos : List Rec) : List String := todos.filterMap Rec.id

/-- The line 37 filter: a record read back from disk is kept as a "new item"
iff its id is not among `our_ids` (a record without an id is always kept,
since `None` is never an element of the id set). -/
def isNewItem (todos : List Rec) (r : Rec) : Bool :=
  match r.id with
  | some s => !((ourIds todos).contains s)
  | none => true

/-- Embedding of `todo.py` lines 29-64, `save_todos`: re-read the current file, append the
current records whose ids are absent from the candidate, sort by
`get_sort_key`, and overwrite the file; the result is the new file content. -/
def save_todos (todos : List Rec) (disk : Option (List Rec)) (sup : Nat → String) : List Rec :=
  List.insertionSort recLe (todos ++ (load_todos disk sup).filter (isNewItem todos))

/-- Embedding of `todo.py` lines 610-633 (Delete/Backspace handler): reload the file, drop
the record with the selected id, and overwrite without the merge step; the
result is the new file content. -/
def deleteAuth (sid : String) (disk : Option (List Rec)) (sup : Nat → String) : List Rec :=
  (load_todos disk sup).filter (fun r => !(r.id == some sid))

/-- A selectable entry (`todo.py` line 82): a collapsed group header carrying
the group name, or a todo entry carrying the index of the item in the
collection. -/
inductive Entry where
  | group (name : Str)
  | todo (idx : Nat)
deriving DecidableEq, Repr

/-- One step of the bucketing loop (`todo.py` lines 104-114): append index `i`
to the bucket of group `g`, creating the bucket at the end when the group has
not been seen yet.  A Python dict paired with the `group_order` list is
modelled as an association list in insertion order. -/
def addEntry (g : Str) (i : Nat) : List (Str × List Nat) → List (Str × List Nat)
  | [] => [(g, [i])]
  | (k, v) :: rest =>
    if k = g then (k, v ++ [i]) :: rest else (k, v) :: addEntry g i rest

/-- The grouping loop of `build_selectable_items` (`todo.py` lines 88-114):
skip completed items when `hide` is set, otherwise add the item's index to its
group's bucket.  `i` is the enumeration index of the first remaining item. -/
def buildGroups (hide : Bool) : Nat → List Rec → List (Str × List Nat) → List (Str × List Nat)
  | _, [], acc => acc
  | i, r :: rs, acc =>
    if hide && r.done then buildGroups hide (i + 1) rs acc
    else buildGroups hide (i + 1) rs (addEntry (get_todo_group_task r.task) i acc)

/-- Emission for one group (`todo.py` lines 116-128): a named collapsed group
yields its header, any other group yields one todo entry per member. -/
def emitOne (collapsed : List Str) (g : Str) (mems : List Nat) : List Entry :=
  if g ≠ ungroupedS ∧ g ∈ collapsed then [Entry.group g] else mems.map Entry.todo

/-- The emission loop of `build_selectable_items` (`todo.py` lines 116-128),
walking the buckets in group order. -/
def emitEntries (collapsed : List Str) : List (Str × List Nat) → List Entry
  | [] => []
  | (g, mems) :: rest => emitOne collapsed g mems ++ emitEntries collapsed rest

/-- Embedding of `todo.py` lines 80-130, `build_selectable_items`. -/
def build_selectable_items (todos : List Rec) (collapsed : List Str) (hide : Bool) : List Entry :=
  emitEntries collapsed (buildGroups hide 0 todos [])

/-- Modelled from the spec: the `(index, group)` pairs of the items that
survive the hide-completed filter, enumerating from `i`. -/
def keptPairs (hide : Bool) : Nat → List Rec → List (Nat × Str)
  | _, [] => []
  | i, r :: rs =>
    if hide && r.done then keptPairs hide (i + 1) rs
    else (i, get_todo_group_task r.task) :: keptPairs hide (i + 1) rs

/-- Modelled from the spec: first-occurrence order of a list of group names,
given the set of names already seen. -/
def firstOccurs (seen : List Str) : List Str → List Str
  | [] => []
  | g :: gs => if g ∈ seen then firstOccurs seen gs else g :: firstOccurs (g :: seen) gs

/-- Modelled from the spec: the bucket of a group, i.e. the indices of the
surviving items carrying that group, in collection order. -/
def bucketIdx (g : Str) (ps : List (Nat × Str)) : List Nat :=
  (ps.filter (fun p => p.2 = g)).map Prod.fst

/-- Modelled from the spec (§4.2): drop completed items when hiding, bucket
the rest by group in first-occurrence order without re-sorting, then emit a
header for each collapsed named group, and the member entries otherwise (the
ungrouped bucket always emits its members). -/
def selectableSpec (todos : List Rec) (collapsed : List Str) (hide : Bool) : List Entry :=
  let ps := keptPairs hide 0 todos
  (firstOccurs [] (ps.map Prod.snd)).foldr
    (fun g acc => emitOne collapsed g (bucketIdx g ps) ++ acc) []

/-- Focus kind: Python's `selected_type` string, `'todo'` or `'group'`. -/
inductive FType where
  | todo
  | group
deriving DecidableEq, Repr

/-- The selection state of the session loop: the numeric index `selected`, the
durable id `selected_id`, the focus kind `selected_type` and the focused group
name `selected_group`. -/
structure Sel where
  selected : Nat
  selected_id : Option String
  selected_type : FType
  selected_group : Option Str
deriving DecidableEq, Repr

/-- Python truthiness of `selected_id` / `editing_id`: `None` and the empty
string are falsy. -/
def truthyId : Option String → Bool
  | none => false
  | some s => !(s == "")

/-- Embedding of `todo.py` lines 170-194 (external-change reload): after `todos` has been
reloaded, re-locate the selection.  A truthy `selected_id` found in the new
collection keeps the focus (index updated); otherwise the index is clamped or
the selection cleared; with no truthy id the first item is selected. -/
def reconcileReload (todos : List Rec) (s : Sel) : Sel :=
  if truthyId s.selected_id then
    match todos.findIdx? (fun r => r.id == s.selected_id) with
    | some i => { s with selected := i }
    | none =>
      if s.selected ≥ todos.length ∧ 0 < todos.length then
        { s with selected := todos.length - 1 }
      else if todos.length = 0 then { s with selected := 0, selected_id := none }
      else s
  else
    match todos with
    | [] => s
    | r :: _ => { s with selected := 0, selected_id := r.id }

/-- The matching test of the `current_pos` scan in the arrow-key handlers
(`todo.py` lines 421-428 and 451-458). -/
def entryMatches (todos : List Rec) (s : Sel) (e : Entry) : Bool :=
  match e with
  | Entry.todo i =>
    s.selected_type == FType.todo &&
      (match todos.get? i with
       | some r => s.selected_id == r.id
       | none => false)
  | Entry.group g => s.selected_type == FType.group && some g == s.selected_group

/-- Applying a selectable entry to the focus (`todo.py` lines 432-440 and
462-470): a todo entry sets the index and id, a group entry sets the group
name and clears the id. -/
def applyEntry (todos : List Rec) (s : Sel) : Entry → Sel
  | Entry.todo i =>
    { s with
      selected_type := FType.todo
      selected := i
      selected_id := (todos.get? i).bind Rec.id
      selected_group := none }
  | Entry.group g =>
    { s with selected_type := FType.group, selected_group := some g, selected_id := none }

/-- Python's `current_pos`: the scan result as an integer, `-1` when the focus
is not found in the selectable list. -/
def currentPos (todos : List Rec) (sel : List Entry) (s : Sel) : Int :=
  match sel.findIdx? (entryMatches todos s) with
  | some n => (n : Int)
  | none => -1

/-- Embedding of `todo.py` lines 444-472 (KEY_DOWN): when the collection and the
selectable list are non-empty, move the focus one entry down provided
`current_pos < len(selectable) - 1`. -/
def moveDown (todos : List Rec) (collapsed : List Str) (hide : Bool) (s : Sel) : Sel :=
  if todos = [] then s
  else if build_selectable_items todos collapsed hide = [] then s
  else if currentPos todos (build_selectable_items todos collapsed hide) s <
      ((build_selectable_items todos collapsed hide).length : Int) - 1 then
    match (build_selectable_items todos collapsed hide).get?
        ((currentPos todos (build_selectable_items todos collapsed hide) s + 1).toNat) with
    | some e => applyEntry todos s e
    | none => s
  else s

/-- Embedding of `todo.py` lines 414-442 (KEY_UP): when the collection and the selectable
list are non-empty, move the focus one entry up provided `current_pos > 0`. -/
def moveUp (todos : List Rec) (collapsed : List Str) (hide : Bool) (s : Sel) : Sel :=
  if todos = [] then s
  else if build_selectable_items todos collapsed hide = [] then s
  else if currentPos todos (build_selectable_items todos collapsed hide) s > 0 then
    match (build_selectable_items todos collapsed hide).get?
        ((currentPos todos (build_selectable_items todos collapsed hide) s - 1).toNat) with
    | some e => applyEntry todos s e
    | none => s
  else s

/-- The priority marker preserved by the save-edit branch (`todo.py` lines
528-532): `'!! '`, `'! '` or the empty string. -/
def priorityMarker (task : Str) : Str :=
  if hiMark.isPrefixOf task then hiMark
  else if loMark.isPrefixOf task then loMark
  else []

/-- The group marker preserved by the save-edit branch (`todo.py` lines
534-540): the text before the first colon of the priority-stripped task plus
`': '`, or the empty string for ungrouped tasks. -/
def groupMarker (task : Str) : Str :=
  match splitColon (task.drop (priorityMarker task).length) with
  | some (a, _) => a ++ [':', ' ']
  | none => []

/-- The record mutation of the save-edit branch (`todo.py` line 543): the new
task is the preserved priority marker, the preserved group marker, and the
stripped input text. -/
def editTask (task input : Str) : Str :=
  priorityMarker task ++ groupMarker task ++ pyStrip input

/-- The `for ... break` loop of the save-edit branch (`todo.py` lines
524-544): mutate the first record whose id matches `editing_id` in place,
leaving every other record untouched. -/
def editFirst (eid : String) (input : Str) : List Rec → List Rec
  | [] => []
  | r :: rs =>
    if r.id == some eid then { r with task := editTask r.task input } :: rs
    else r :: editFirst eid input rs

/-- The `for ... break` loop of the toggle branch (`todo.py` lines 580-584):
negate the `done` flag of the first record whose id matches, leaving every
other field and record untouched. -/
def toggleFirst (sid : String) : List Rec → List Rec
  | [] => []
  | r :: rs =>
    if r.id == some sid then { r with done := !r.done } :: rs
    else r :: toggleFirst sid rs

/-- Embedding of `todo.py` lines 520-608 (Enter key handler), restricted to its effect on
the in-memory collection and the store file.  The branches are: save-edit
(non-blank input and truthy `editing_id`), create (non-blank input), toggle
(blank input, not in input mode, a todo focused), and otherwise no effect.
`sup` models the `uuid.uuid4()` supply, `newId` the id of a created item. -/
def enterKey (sup : Nat → String) (newId : String) (input : Str) (editingId : Option String)
    (inputMode : Bool) (s : Sel) (todos : List Rec) (disk : Option (List Rec)) :
    List Rec × Option (List Rec) :=
  if pyStrip input ≠ [] ∧ truthyId editingId then
    let t1 := load_todos disk sup
    let t2 := editFirst (editingId.getD "") input t1
    let d2 := save_todos t2 disk sup
    (load_todos (some d2) sup, some d2)
  else if pyStrip input ≠ [] then
    let t2 := todos ++ [⟨some newId, pyStrip input, false, []⟩]
    let d2 := save_todos t2 disk sup
    (load_todos (some d2) sup, some d2)
  else if todos ≠ [] ∧ inputMode = false ∧ s.selected_type = FType.todo ∧
      truthyId s.selected_id then
    let t1 := load_todos disk sup
    let t2 := toggleFirst (s.selected_id.getD "") t1
    let d2 := save_todos t2 disk sup
    (load_todos (some d2) sup, some d2)
  else (todos, disk)

example : priorityOf ['!', '!', ' ', 'a'] = 2 := by decide
example : priorityOf ['!', ' ', 'a'] = 1 := by decide
example : priorityOf ['!', '!', 'a'] = 0 := by decide
example : splitColon ['a', ':', 'b'] = some (['a'], ['b']) := by decide
example : pyStrip [' ', 'a', ' '] = ['a'] := by decide
example :
    get_sort_key ⟨some "x", ['W', 'o', 'r', 'k', ':', ' ', 'A'], false, []⟩ =
      (0, ['w', 'o', 'r', 'k'], ['a']) := by decide
example :
    save_todos [⟨some "z", ['S', 'o', 'l', 'o'], false, []⟩,
        ⟨some "a", ['W', ':', 'x'], false, []⟩] (some []) (fun _ => "") =
      [⟨some "a", ['W', ':', 'x'], false, []⟩, ⟨some "z", ['S', 'o', 'l', 'o'], false, []⟩] := by
  decide

/-! ### Store lemmas -/

theorem mem_backfillIds_isSome (sup : Nat → String) :
    ∀ (i : Nat) (l : List Rec), ∀ r ∈ backfillIds sup i l, r.id.isSome
  | _, [], _, h => absurd h (List.not_mem_nil _)
  | i, x :: xs, r, h => by
    rcases List.mem_cons.mp h with h | h
    · subst h
      cases hx : x.id <;> simp [hx]
    · exact mem_backfillIds_isSome sup (i + 1) xs r h

theorem backfillIds_all_some (sup : Nat → String) :
    ∀ (i : Nat) (l : List Rec), (∀ r ∈ l, r.id.isSome) → backfillIds sup i l = l
  | _, [], _ => rfl
  | i, x :: xs, h => by
    have hx := h x (List.mem_cons_self x xs)
    cases heq : x.id with
    | none => rw [heq] at hx; simp at hx
    | some s =>
      simp only [backfillIds, heq]
      rw [backfillIds_all_some sup (i + 1) xs fun r hr => h r (List.mem_cons_of_mem x hr)]

theorem load_todos_all_some {l : List Rec} (sup : Nat → String)
    (h : ∀ r ∈ l, r.id.isSome) : load_todos (some l) sup = l :=
  backfillIds_all_some sup 0 l h

theorem mem_load_isSome {disk : Option (List Rec)} {sup : Nat → String} {r : Rec}
    (h : r ∈ load_todos disk sup) : r.id.isSome := by
  cases disk with
  | none => exact absurd h (List.not_mem_nil _)
  | some l => exact mem_backfillIds_isSome sup 0 l r h

theorem isNewItem_iff {todos : List Rec} {r : Rec} :
    isNewItem todos r = true ↔ ∀ s, r.id = some s → s ∉ ourIds todos := by
  cases h : r.id with
  | none => simp [isNewItem, h]
  | some s =>
    simp only [isNewItem, h]
    constructor
    · intro hb s' hs'
      cases hs'
      intro hmem
      rw [Bool.not_eq_true', ← Bool.not_eq_true] at hb
      exact hb (by simpa [List.contains] using List.elem_iff.mpr hmem)
    · intro hall
      have : s ∉ ourIds todos := hall s rfl
      rw [Bool.not_eq_true']
      rw [← Bool.not_eq_true]
      intro hc
      exact this (List.elem_iff.mp (by simpa [List.contains] using hc))

theorem mem_save_todos {todos : List Rec} {disk : Option (List Rec)} {sup : Nat → String}
    {x : Rec} :
    x ∈ save_todos todos disk sup ↔
      x ∈ todos ∨ (x ∈ load_todos disk sup ∧ isNewItem todos x = true) := by
  unfold save_todos
  rw [List.mem_insertionSort, List.mem_append, List.mem_filter]

/-- C1: merge safety of `save_todos` — the written file contains exactly the
candidate items together with every re-read current item whose id is absent
from the set of ids present in the candidate, so a concurrent addition by
another session is never lost by a save. -/
theorem save_merge_safety (todos : List Rec) (disk : Option (List Rec)) (sup : Nat → String)
    (x : Rec) :
    x ∈ save_todos todos disk sup ↔
      x ∈ todos ∨ (x ∈ load_todos disk sup ∧ ∀ s, x.id = some s → s ∉ ourIds todos) := by
  rw [mem_save_todos]
  exact or_congr Iff.rfl (and_congr Iff.rfl isNewItem_iff)

/-- The decoded view of a record: id, priority, group, display text, done. -/
def decodeTuple (r : Rec) : Option String × Nat × Str × Str × Bool :=
  (r.id, priorityOf r.task, get_todo_group_task r.task, decodeText r.task, r.done)

/-- C2: round trip of persistence — for a collection whose items all carry
ids, saved onto a disk none of whose (re-read) items is new to the candidate,
saving and reloading yields the same set of decoded
`(id, priority, group, text, done)` tuples, independently of on-disk order. -/
theorem save_load_round_trip (todos : List Rec) (disk : Option (List Rec))
    (sup sup2 : Nat → String)
    (h1 : ∀ r ∈ todos, r.id.isSome)
    (h2 : ∀ r ∈ load_todos disk sup, ∃ s ∈ ourIds todos, r.id = some s) :
    ∀ t, t ∈ (load_todos (some (save_todos todos disk sup)) sup2).map decodeTuple ↔
      t ∈ todos.map decodeTuple := by
  have hfil : (load_todos disk sup).filter (isNewItem todos) = [] := by
    rw [List.filter_eq_nil_iff]
    intro a ha
    obtain ⟨s, hmem, hs⟩ := h2 a ha
    rw [Bool.not_eq_true, ← Bool.not_eq_true']
    simp only [isNewItem, hs, Bool.not_not]
    simpa [List.contains] using List.elem_iff.mpr hmem
  have hsave : save_todos todos disk sup = List.insertionSort recLe todos := by
    unfold save_todos
    rw [hfil, List.append_nil]
  have hperm : List.Perm (save_todos todos disk sup) todos := by
    rw [hsave]; exact List.perm_insertionSort _ _
  have hsome : ∀ r ∈ save_todos todos disk sup, r.id.isSome := fun r hr =>
    h1 r (hperm.mem_iff.mp hr)
  have hload : load_todos (some (save_todos todos disk sup)) sup2 =
      save_todos todos disk sup := load_todos_all_some sup2 hsome
  intro t
  rw [hload]
  exact (hperm.map decodeTuple).mem_iff

/-- Witness for C2 at a concrete collection and disk. -/
theorem save_load_round_trip_witness :
    (∀ r ∈ [(⟨some "a", ['x'], false, []⟩ : Rec)], r.id.isSome) ∧
      (∀ t, t ∈ (load_todos (some (save_todos [(⟨some "a", ['x'], false, []⟩ : Rec)]
            (some [⟨some "a", ['x'], true, []⟩]) (fun _ => "") )) (fun _ => "")).map decodeTuple ↔
          t ∈ ([(⟨some "a", ['x'], false, []⟩ : Rec)]).map decodeTuple) :=
  ⟨by decide,
    save_load_round_trip [⟨some "a", ['x'], false, []⟩] (some [⟨some "a", ['x'], true, []⟩])
      (fun _ => "") (fun _ => "") (by decide) (by decide)⟩

/-- A concrete record with id `"I"`, used in the C3 counterexample. -/
def recI : Rec := ⟨some "I", ['x'], false, []⟩

/-- An arbitrary id supply for concrete evaluations. -/
def supE : Nat → String := fun _ => ""

/-- Counterexample to C3 as stated: session A deletes id `"I"` via the
authoritative path (the file becomes empty), session B's stale in-memory copy
still contains the record and calls the merge-on-save path with it present —
and the resulting file does contain id `"I"` again. -/
theorem delete_resurrection_cex :
    deleteAuth "I" (some [recI]) supE = [] ∧
      save_todos [recI] (some (deleteAuth "I" (some [recI]) supE)) supE = [recI] ∧
      recI.id = some "I" := by
  decide

/-- C3 amended: after an authoritative delete of id `I`, a merge-on-save
cannot re-introduce `I` from the disk side — whenever the saving session's
candidate itself contains no record with id `I`, the resulting file contains
none either.  (A candidate still holding `I` rewrites it; that resurrection is
the limitation §4.1 acknowledges.) -/
theorem delete_no_merge_resurrection (I : String) (candidate : List Rec)
    (disk : Option (List Rec)) (sup1 sup2 : Nat → String)
    (hc : ∀ r ∈ candidate, r.id ≠ some I) :
    ∀ r ∈ save_todos candidate (some (deleteAuth I disk sup1)) sup2, r.id ≠ some I := by
  intro r hr
  rcases mem_save_todos.mp hr with h | ⟨hmem, _⟩
  · exact hc r h
  · have hall : ∀ x ∈ deleteAuth I disk sup1, x.id.isSome := fun x hx =>
      mem_load_isSome (List.mem_filter.mp hx).1
    rw [load_todos_all_some sup2 hall] at hmem
    have hcond := (List.mem_filter.mp hmem).2
    intro he
    rw [he] at hcond
    simp at hcond

/-- Witness for the amended C3 at a concrete input. -/
theorem delete_no_merge_resurrection_witness :
    (∀ r ∈ [(⟨some "J", ['y'], false, []⟩ : Rec)], r.id ≠ some "I") ∧
      (∀ r ∈ save_todos [(⟨some "J", ['y'], false, []⟩ : Rec)]
          (some (deleteAuth "I" (some [recI, ⟨some "J", ['y'], false, []⟩]) supE)) supE,
        r.id ≠ some "I") :=
  ⟨by decide,
    delete_no_merge_resurrection "I" [⟨some "J", ['y'], false, []⟩]
      (some [recI, ⟨some "J", ['y'], false, []⟩]) supE supE (by decide)⟩

/-! ### String-order lemmas -/

theorem char_eq_of_toNat {c d : Char} (h : c.toNat = d.toNat) : c = d :=
  Char.ext (UInt32.ext h)

theorem strLt_cons_iff {c d : Char} {cs ds : Str} :
    strLt (c :: cs) (d :: ds) = true ↔
      c.toNat < d.toNat ∨ (c = d ∧ strLt cs ds = true) := by
  simp only [strLt]
  split_ifs with h1 h2
  · exact iff_of_true rfl (Or.inl h1)
  · refine iff_of_false (by simp) ?_
    rintro (h | ⟨he, _⟩)
    · omega
    · subst he; omega
  · constructor
    · intro h
      exact Or.inr ⟨char_eq_of_toNat (by omega), h⟩
    · rintro (h | ⟨_, h⟩)
      · omega
      · exact h

theorem strLt_irrefl : ∀ s : Str, strLt s s = false
  | [] => rfl
  | c :: cs => by
    have ih := strLt_irrefl cs
    rw [← Bool.not_eq_true, strLt_cons_iff]
    rintro (h | ⟨_, h⟩)
    · omega
    · rw [ih] at h
      exact Bool.noConfusion h

theorem strLt_eq_of_not : ∀ {s t : Str}, strLt s t = false → strLt t s = false → s = t
  | [], [], _, _ => rfl
  | [], _ :: _, h, _ => by simp [strLt] at h
  | _ :: _, [], _, h => by simp [strLt] at h
  | c :: cs, d :: ds, h1, h2 => by
    have H1 : ¬(c.toNat < d.toNat ∨ (c = d ∧ strLt cs ds = true)) := fun hh => by
      rw [strLt_cons_iff.mpr hh] at h1
      exact Bool.noConfusion h1
    have H2 : ¬(d.toNat < c.toNat ∨ (d = c ∧ strLt ds cs = true)) := fun hh => by
      rw [strLt_cons_iff.mpr hh] at h2
      exact Bool.noConfusion h2
    have hnd : ¬ c.toNat < d.toNat := fun h => H1 (Or.inl h)
    have hnc : ¬ d.toNat < c.toNat := fun h => H2 (Or.inl h)
    have hcd : c = d := char_eq_of_toNat (by omega)
    subst hcd
    have hr1 : strLt cs ds = false := by
      cases hx : strLt cs ds
      · rfl
      · exact absurd (Or.inr ⟨rfl, hx⟩) H1
    have hr2 : strLt ds cs = false := by
      cases hx : strLt ds cs
      · rfl
      · exact absurd (Or.inr ⟨rfl, hx⟩) H2
    rw [strLt_eq_of_not hr1 hr2]

theorem strLt_trans : ∀ {s t u : Str}, strLt s t = true → strLt t u = true → strLt s u = true
  | [], [], _, h, _ => by simp [strLt] at h
  | [], _ :: _, [], _, h => by simp [strLt] at h
  | [], _ :: _, _ :: _, _, _ => rfl
  | _ :: _, [], _, h, _ => by simp [strLt] at h
  | _ :: _, _ :: _, [], _, h => by simp [strLt] at h
  | c :: cs, d :: ds, e :: es, h1, h2 => by
    rw [strLt_cons_iff] at h1 h2 ⊢
    rcases h1 with h1 | ⟨h1e, h1r⟩
    · rcases h2 with h2 | ⟨h2e, _⟩
      · exact Or.inl (by omega)
      · subst h2e; exact Or.inl h1
    · subst h1e
      rcases h2 with h2 | ⟨h2e, h2r⟩
      · exact Or.inl h2
      · subst h2e; exact Or.inr ⟨rfl, strLt_trans h1r h2r⟩

theorem strLe_iff : ∀ {s t : Str}, strLe s t = true ↔ strLt s t = true ∨ s = t
  | [], [] => by simp [strLe, strLt]
  | [], _ :: _ => by simp [strLe, strLt]
  | _ :: _, [] => by simp [strLe, strLt]
  | c :: cs, d :: ds => by
    simp only [strLe, strLt_cons_iff]
    split_ifs with h1 h2
    · exact iff_of_true rfl (Or.inl (Or.inl h1))
    · refine iff_of_false (by simp) ?_
      rintro ((h | ⟨he, _⟩) | he)
      · omega
      · subst he; omega
      · cases he; omega
    · rw [strLe_iff]
      constructor
      · rintro (h | h)
        · exact Or.inl (Or.inr ⟨char_eq_of_toNat (by omega), h⟩)
        · rw [char_eq_of_toNat (show c.toNat = d.toNat by omega), h]
          exact Or.inr rfl
      · rintro ((h | ⟨_, h⟩) | he)
        · omega
        · exact Or.inl h
        · cases he; exact Or.inr rfl

theorem strLe_refl (s : Str) : strLe s s = true := strLe_iff.mpr (Or.inr rfl)

theorem strLe_trans {s t u : Str} (h1 : strLe s t = true) (h2 : strLe t u = true) :
    strLe s u = true := by
  rcases strLe_iff.mp h1 with h1 | rfl
  · rcases strLe_iff.mp h2 with h2 | rfl
    · exact strLe_iff.mpr (Or.inl (strLt_trans h1 h2))
    · exact strLe_iff.mpr (Or.inl h1)
  · exact h2

theorem keyLe_iff {k1 k2 : SKey} :
    keyLe k1 k2 = true ↔
      k1.1 < k2.1 ∨ (k1.1 = k2.1 ∧ (strLt k1.2.1 k2.2.1 = true ∨
        (k1.2.1 = k2.2.1 ∧ strLe k1.2.2 k2.2.2 = true))) := by
  obtain ⟨n1, a1, b1⟩ := k1
  obtain ⟨n2, a2, b2⟩ := k2
  simp only [keyLe]
  split_ifs with h1 h2 h3 h4
  · exact iff_of_true rfl (Or.inl h1)
  · refine iff_of_false (by simp) ?_
    rintro (h | ⟨he, _⟩) <;> omega
  · exact iff_of_true rfl (Or.inr ⟨by omega, Or.inl h3⟩)
  · refine iff_of_false (by simp) ?_
    rintro (h | ⟨_, h | ⟨he, _⟩⟩)
    · omega
    · exact absurd h h3
    · subst he
      simp [strLt_irrefl] at h4
  · have hae : a1 = a2 :=
      strLt_eq_of_not (Bool.not_eq_true _ ▸ h3) (Bool.not_eq_true _ ▸ h4)
    constructor
    · intro h
      exact Or.inr ⟨by omega, Or.inr ⟨hae, h⟩⟩
    · rintro (h | ⟨_, h | ⟨_, h⟩⟩)
      · omega
      · exact absurd h h3
      · exact h
  
theorem bool_eq_false {b : Bool} (h : ¬ b = true) : b = false := by
  cases b
  · rfl
  · exact absurd rfl h

theorem strLe_total (s t : Str) : strLe s t = true ∨ strLe t s = true := by
  by_cases h1 : strLt s t = true
  · exact Or.inl (strLe_iff.mpr (Or.inl h1))
  · by_cases h2 : strLt t s = true
    · exact Or.inr (strLe_iff.mpr (Or.inl h2))
    · exact Or.inl (strLe_iff.mpr (Or.inr (strLt_eq_of_not (bool_eq_false h1) (bool_eq_false h2))))

theorem keyLe_total (k1 k2 : SKey) : keyLe k1 k2 = true ∨ keyLe k2 k1 = true := by
  obtain ⟨n1, a1, b1⟩ := k1
  obtain ⟨n2, a2, b2⟩ := k2
  rcases Nat.lt_trichotomy n1 n2 with h | h | h
  · exact Or.inl (keyLe_iff.mpr (Or.inl h))
  · subst h
    by_cases ha : strLt a1 a2 = true
    · exact Or.inl (keyLe_iff.mpr (Or.inr ⟨rfl, Or.inl ha⟩))
    · by_cases ha2 : strLt a2 a1 = true
      · exact Or.inr (keyLe_iff.mpr (Or.inr ⟨rfl, Or.inl ha2⟩))
      · have hae : a1 = a2 := strLt_eq_of_not (bool_eq_false ha) (bool_eq_false ha2)
        rcases strLe_total b1 b2 with hb | hb
        · exact Or.inl (keyLe_iff.mpr (Or.inr ⟨rfl, Or.inr ⟨hae, hb⟩⟩))
        · exact Or.inr (keyLe_iff.mpr (Or.inr ⟨rfl, Or.inr ⟨hae.symm, hb⟩⟩))
  · exact Or.inr (keyLe_iff.mpr (Or.inl h))

theorem keyLe_trans {k1 k2 k3 : SKey} (h1 : keyLe k1 k2 = true) (h2 : keyLe k2 k3 = true) :
    keyLe k1 k3 = true := by
  obtain ⟨n1, a1, b1⟩ := k1
  obtain ⟨n2, a2, b2⟩ := k2
  obtain ⟨n3, a3, b3⟩ := k3
  rw [keyLe_iff] at h1 h2 ⊢
  rcases h1 with h1 | ⟨h1n, h1r⟩
  · rcases h2 with h2 | ⟨h2n, _⟩
    · exact Or.inl (by omega)
    · exact Or.inl (by omega)
  · rcases h2 with h2 | ⟨h2n, h2r⟩
    · exact Or.inl (by omega)
    · refine Or.inr ⟨by omega, ?_⟩
      rcases h1r with h1r | ⟨h1e, h1b⟩
      · rcases h2r with h2r | ⟨h2e, _⟩
        · exact Or.inl (strLt_trans h1r h2r)
        · exact Or.inl (h2e ▸ h1r)
      · rcases h2r with h2r | ⟨h2e, h2b⟩
        · exact Or.inl (h1e ▸ h2r)
        · exact Or.inr ⟨h1e.trans h2e, strLe_trans h1b h2b⟩

instance : IsTotal Rec recLe :=
  ⟨fun a b => keyLe_total (get_sort_key a) (get_sort_key b)⟩

instance : IsTrans Rec recLe :=
  ⟨fun _ _ _ h1 h2 => keyLe_trans h1 h2⟩

/-- Characterization of `splitColon`: it fires exactly on strings containing a
colon, returning the text before and after the first colon. -/
theorem splitColon_eq (s : Str) :
    splitColon s =
      if ':' ∈ s then
        some (s.takeWhile (fun c => !(c == ':')), (s.dropWhile (fun c => !(c == ':'))).tail)
      else none := by
  induction s with
  | nil => rfl
  | cons c cs ih =>
    by_cases hc : c = ':'
    · subst hc
      rw [if_pos (List.mem_cons_self _ _)]
      simp [splitColon, List.takeWhile_cons, List.dropWhile_cons]
    · have hbeq : (c == ':') = false := by
        rw [beq_eq_false_iff_ne]
        exact hc
      simp only [splitColon, if_neg hc, ih]
      by_cases hmem : ':' ∈ cs
      · rw [if_pos hmem, if_pos (List.mem_cons_of_mem _ hmem)]
        simp [List.takeWhile_cons, List.dropWhile_cons, hbeq]
      · rw [if_neg hmem]
        rw [if_neg (by
          simp only [List.mem_cons]
          rintro (h | h)
          · exact hc h.symm
          · exact hmem h)]

/-- Whether a record is grouped, i.e. its priority-stripped task has a colon. -/
def grouped (r : Rec) : Bool := (splitColon (stripPriority r.task)).isSome

theorem get_sort_key_fst (r : Rec) :
    (get_sort_key r).1 = if grouped r then 0 else 1 := by
  rcases h : splitColon (stripPriority r.task) with _ | ⟨a, b⟩ <;>
    simp [get_sort_key, grouped, h]

/-- Record with task `'Work: Zebra'`. -/
def rWZ : Rec := ⟨some "z", ['W', 'o', 'r', 'k', ':', ' ', 'Z', 'e', 'b', 'r', 'a'], false, []⟩

/-- Record with task `'Work: Apple'`. -/
def rWA : Rec := ⟨some "a", ['W', 'o', 'r', 'k', ':', ' ', 'A', 'p', 'p', 'l', 'e'], false, []⟩

/-- Record with task `'Solo'`. -/
def rSolo : Rec := ⟨some "s", ['S', 'o', 'l', 'o'], false, []⟩

/-- C4: canonical sort order — the sort key strips the priority marker and
maps a colon-bearing task to `(0, lower group, lower rest)` and any other
task to `(1, '', lower task)`; in any saved file no grouped item ever appears
after an ungrouped one; the key order is total (and, being a function,
deterministic); and `'Work: Apple'` sorts immediately before `'Work: Zebra'`
with ungrouped `'Solo'` last, for either insertion order. -/
theorem canonical_sort_order :
    (∀ r : Rec,
      (':' ∈ stripPriority r.task →
        get_sort_key r = (0,
          lowerStr (pyStrip ((stripPriority r.task).takeWhile (fun c => !(c == ':')))),
          lowerStr (pyStrip (((stripPriority r.task).dropWhile (fun c => !(c == ':'))).tail)))) ∧
      (':' ∉ stripPriority r.task →
        get_sort_key r = (1, [], lowerStr (stripPriority r.task)))) ∧
    (∀ (todos : List Rec) (disk : Option (List Rec)) (sup : Nat → String) (i j : Nat)
      (hi : i < (save_todos todos disk sup).length) (hj : j < (save_todos todos disk sup).length),
      i < j → grouped ((save_todos todos disk sup).get ⟨j, hj⟩) = true →
        grouped ((save_todos todos disk sup).get ⟨i, hi⟩) = true) ∧
    (∀ r1 r2 : Rec, recLe r1 r2 ∨ recLe r2 r1) ∧
    (save_todos [rWZ, rWA, rSolo] (some []) supE = [rWA, rWZ, rSolo] ∧
      save_todos [rSolo, rWA, rWZ] (some []) supE = [rWA, rWZ, rSolo]) := by
  refine ⟨fun r => ⟨fun h => ?_, fun h => ?_⟩, ?_, fun r1 r2 => keyLe_total _ _, by decide⟩
  · simp only [get_sort_key, splitColon_eq, if_pos h]
  · simp only [get_sort_key, splitColon_eq, if_neg h]
  · intro todos disk sup i j hi hj hij hgj
    by_contra hgi
    have hgi' : grouped ((save_todos todos disk sup).get ⟨i, hi⟩) = false := bool_eq_false hgi
    have hsorted : List.Sorted recLe (save_todos todos disk sup) := by
      unfold save_todos
      exact List.sorted_insertionSort recLe _
    have hrel : recLe ((save_todos todos disk sup).get ⟨i, hi⟩)
        ((save_todos todos disk sup).get ⟨j, hj⟩) :=
      hsorted.rel_get_of_lt hij
    unfold recLe at hrel
    rw [keyLe_iff] at hrel
    have h1 : (get_sort_key ((save_todos todos disk sup).get ⟨i, hi⟩)).1 = 1 := by
      rw [get_sort_key_fst, hgi']
      rfl
    have h0 : (get_sort_key ((save_todos todos disk sup).get ⟨j, hj⟩)).1 = 0 := by
      rw [get_sort_key_fst, hgj]
      rfl
    rcases hrel with h | ⟨h, _⟩ <;> omega

/-- Witness for C4 at concrete records and a concrete save. -/
theorem canonical_sort_order_witness :
    (':' ∈ stripPriority rWA.task) ∧
      get_sort_key rWA = (0, ['w', 'o', 'r', 'k'], ['a', 'p', 'p', 'l', 'e']) ∧
      grouped ((save_todos [rSolo, rWA, rWZ] (some []) supE).get ⟨1, by decide⟩) = true ∧
      grouped ((save_todos [rSolo, rWA, rWZ] (some []) supE).get ⟨0, by decide⟩) = true :=
  ⟨by decide, (canonical_sort_order.1 rWA).1 (by decide), by decide,
    canonical_sort_order.2.1 [rSolo, rWA, rWZ] (some []) supE 0 1 (by decide) (by decide)
      (by decide) (by decide)⟩

/-- Modelled from the spec: the decoded group exactly as the claim words it —
"the substring before the first colon of the priority-stripped text, or the
sentinel ungrouped value when no colon is present" — with no whitespace
trimming. -/
def claimGroup (task : Str) : Str :=
  match splitColon (stripPriority task) with
  | some (a, _) => a
  | none => ungroupedS

/-- Modelled from the spec: the decoded display text exactly as the claim
words it — "the remainder after that separator (or the whole priority-stripped
string when ungrouped)" — with no whitespace trimming. -/
def claimText (task : Str) : Str :=
  match splitColon (stripPriority task) with
  | some (_, b) => b
  | none => stripPriority task

/-- Counterexample to C6 as stated: for the task `'a : b'` the code's decoded
group is `'a'` — the substring before the first colon is `'a '` (with the
space), and the code additionally strips whitespace; likewise the decoded
display text is `'b'`, not the raw remainder `' b'`. -/
theorem codec_decode_cex :
    get_todo_group_task ['a', ' ', ':', ' ', 'b'] = ['a'] ∧
      claimGroup ['a', ' ', ':', ' ', 'b'] = ['a', ' '] ∧
      get_todo_group_task ['a', ' ', ':', ' ', 'b'] ≠ claimGroup ['a', ' ', ':', ' ', 'b'] ∧
      decodeText ['a', ' ', ':', ' ', 'b'] = ['b'] ∧
      claimText ['a', ' ', ':', ' ', 'b'] = [' ', 'b'] ∧
      decodeText ['a', ' ', ':', ' ', 'b'] ≠ claimText ['a', ' ', ':', ' ', 'b'] := by
  decide

/-- C6 amended: decoded priority is high exactly on a `'!! '` prefix, low
exactly on a `'! '` prefix without a `'!! '` prefix, none otherwise; the
decoded group is the whitespace-trimmed substring before the first colon of
the priority-stripped text (sentinel when no colon); the decoded display text
is the whitespace-trimmed remainder after that separator, or the whole
untrimmed priority-stripped string when ungrouped. -/
theorem codec_decode (task : Str) :
    (priorityOf task = 2 ↔ hiMark <+: task) ∧
      (priorityOf task = 1 ↔ loMark <+: task ∧ ¬hiMark <+: task) ∧
      (priorityOf task = 0 ↔ ¬loMark <+: task ∧ ¬hiMark <+: task) ∧
      get_todo_group_task task =
        (if ':' ∈ stripPriority task then
          pyStrip ((stripPriority task).takeWhile (fun c => !(c == ':')))
        else ungroupedS) ∧
      decodeText task =
        (if ':' ∈ stripPriority task then
          pyStrip (((stripPriority task).dropWhile (fun c => !(c == ':'))).tail)
        else stripPriority task) := by
  refine ⟨?_, ?_, ?_, ?_, ?_⟩
  · rw [← List.isPrefixOf_iff_prefix]
    unfold priorityOf
    split_ifs with h1 h2 <;> simp [h1]
  · rw [← List.isPrefixOf_iff_prefix, ← List.isPrefixOf_iff_prefix]
    unfold priorityOf
    split_ifs with h1 h2 <;> simp_all
  · rw [← List.isPrefixOf_iff_prefix, ← List.isPrefixOf_iff_prefix]
    unfold priorityOf
    split_ifs with h1 h2 <;> simp_all
  · simp only [get_todo_group_task, splitColon_eq]
    by_cases hmem : ':' ∈ stripPriority task
    · rw [if_pos hmem, if_pos hmem]
    · rw [if_neg hmem, if_neg hmem]
  · simp only [decodeText, splitColon_eq]
    by_cases hmem : ':' ∈ stripPriority task
    · rw [if_pos hmem, if_pos hmem]
    · rw [if_neg hmem, if_neg hmem]

/-- Record with id `"a"` and task `'a'`. -/
def rA : Rec := ⟨some "a", ['a'], false, []⟩

/-- Record with id `"b"` and task `'b'`. -/
def rB : Rec := ⟨some "b", ['b'], false, []⟩

/-- A selection state whose focus id `"X"` matches no record. -/
def selStale : Sel := ⟨1, some "X", FType.todo, none⟩

/-- Counterexample to C5 as stated: after an external reload of `[rA, rB]`,
the stale prior focus `"X"` occurs nowhere in the selectable entries, yet the
reconciliation leaves the state (and its dangling id) unchanged instead of
falling back to the first entry (id `"a"`) or to no selection. -/
theorem reconcile_cex :
    build_selectable_items [rA, rB] [] false = [Entry.todo 0, Entry.todo 1] ∧
      (∀ r ∈ [rA, rB], r.id ≠ some "X") ∧
      reconcileReload [rA, rB] selStale = selStale ∧
      selStale.selected_id = some "X" ∧
      (some "X" : Option String) ≠ rA.id ∧
      (some "X" : Option String) ≠ none := by
  decide

/-- C5 amended: on an external reload with a truthy prior item id, the focus
is kept (index updated) when the id occurs in the reloaded collection; when it
does not occur the selection is cleared only if the collection is empty, and
otherwise the stale id is retained with the index merely clamped to the last
position — the focus does not move to the first entry, and the selectable
entries play no role.  Without a truthy prior item id (e.g. a group-header
focus), the index and stored id are pointed at the first item while the focus
kind and group name are left untouched. -/
theorem reconcile_reload_behavior (todos : List Rec) (s : Sel) :
    (truthyId s.selected_id = true →
      ∀ i, todos.findIdx? (fun r => r.id == s.selected_id) = some i →
        reconcileReload todos s = { s with selected := i }) ∧
      (truthyId s.selected_id = true →
        todos.findIdx? (fun r => r.id == s.selected_id) = none → todos ≠ [] →
        reconcileReload todos s =
          (if todos.length ≤ s.selected then { s with selected := todos.length - 1 } else s)) ∧
      (truthyId s.selected_id = true →
        todos.findIdx? (fun r => r.id == s.selected_id) = none → todos = [] →
        reconcileReload todos s = { s with selected := 0, selected_id := none }) ∧
      (truthyId s.selected_id = false →
        reconcileReload todos s =
          (match todos with
           | [] => s
           | r :: _ => { s with selected := 0, selected_id := r.id })) := by
  refine ⟨fun ht i hi => ?_, fun ht hn hne => ?_, fun ht hn hnil => ?_, fun ht => ?_⟩
  · simp only [reconcileReload, ht, if_true, hi]
  · simp only [reconcileReload, ht, if_true, hn]
    have hpos : 0 < todos.length := List.length_pos.mpr hne
    by_cases hge : todos.length ≤ s.selected
    · rw [if_pos ⟨hge, hpos⟩, if_pos hge]
    · rw [if_neg (fun hh => hge hh.1), if_neg (by omega), if_neg hge]
  · subst hnil
    simp only [reconcileReload, ht, if_true, hn, List.length_nil]
    rw [if_neg (by omega : ¬(s.selected ≥ 0 ∧ 0 < 0))]
  · simp only [reconcileReload, ht, Bool.false_eq_true, if_false]

/-- Witness for the amended C5: the stale-focus state over `[rA, rB]` is left
unchanged by reconciliation. -/
theorem reconcile_reload_behavior_witness :
    truthyId selStale.selected_id = true ∧ reconcileReload [rA, rB] selStale = selStale :=
  ⟨by decide, by
    have h := (reconcile_reload_behavior [rA, rB] selStale).2.1 (by decide) (by decide)
      (by decide)
    rwa [if_neg (by decide)] at h⟩

/-- C8: rejection of empty text — when the trimmed submitted input is empty,
the Enter handler in input mode neither creates nor mutates an item and never
touches the store file: collection and disk are returned unchanged. -/
theorem empty_submit_rejected (sup : Nat → String) (newId : String) (input : Str)
    (editingId : Option String) (s : Sel) (todos : List Rec) (disk : Option (List Rec))
    (hblank : pyStrip input = []) :
    enterKey sup newId input editingId true s todos disk = (todos, disk) := by
  unfold enterKey
  rw [if_neg (by rintro ⟨h, _⟩; exact h hblank)]
  rw [if_neg (fun h => h hblank)]
  rw [if_neg (by rintro ⟨_, h, _⟩; exact Bool.noConfusion h)]

/-- Witness for C8: submitting two spaces while in input mode leaves the
collection and the store file untouched. -/
theorem empty_submit_rejected_witness :
    pyStrip [' ', ' '] = [] ∧
      enterKey supE "n" [' ', ' '] none true selStale [rA] (some [rA]) = ([rA], some [rA]) :=
  ⟨by decide,
    empty_submit_rejected supE "n" [' ', ' '] none selStale [rA] (some [rA]) (by decide)⟩

/-- C9: frame property of edit and toggle — the save-edit loop rewrites only
the focused record's task, to the preserved priority marker followed by the
preserved group marker followed by the trimmed input, leaving its id, done
flag and unknown extra fields as well as every other record untouched; the
toggle loop negates only the focused record's done flag. -/
theorem edit_toggle_frame (eid : String) (input : Str) (pre post : List Rec) (r : Rec)
    (hpre : ∀ x ∈ pre, x.id ≠ some eid) (hr : r.id = some eid) :
    editFirst eid input (pre ++ r :: post) =
      pre ++ { r with task := priorityMarker r.task ++ groupMarker r.task ++ pyStrip input }
        :: post ∧
      toggleFirst eid (pre ++ r :: post) = pre ++ { r with done := !r.done } :: post := by
  induction pre with
  | nil =>
    constructor
    · simp only [List.nil_append, editFirst, hr]
      rw [if_pos (by simp)]
      rfl
    · simp only [List.nil_append, toggleFirst, hr]
      rw [if_pos (by simp)]
  | cons x xs ih =>
    have hx : (x.id == some eid) = false :=
      beq_eq_false_iff_ne.mpr (hpre x (List.mem_cons_self x xs))
    have ih' := ih fun y hy => hpre y (List.mem_cons_of_mem x hy)
    constructor
    · simp only [List.cons_append, editFirst]
      rw [if_neg (by simp [hx])]
      exact congrArg (x :: ·) ih'.1
    · simp only [List.cons_append, toggleFirst]
      rw [if_neg (by simp [hx])]
      exact congrArg (x :: ·) ih'.2

/-- A record with a priority marker, a group, a done flag and an extra field,
used in the C9 witness. -/
def rE : Rec := ⟨some "e", ['!', ' ', 'W', ':', 'x'], false, [("k", ['v'])]⟩

/-- Witness for C9 on a concrete record carrying an unknown extra field. -/
theorem edit_toggle_frame_witness :
    (∀ x ∈ ([] : List Rec), x.id ≠ some "e") ∧ rE.id = some "e" ∧
      (editFirst "e" [' ', 'y', ' '] ([] ++ rE :: []) =
        [] ++ { rE with
          task := priorityMarker rE.task ++ groupMarker rE.task ++ pyStrip [' ', 'y', ' '] }
          :: [] ∧
        toggleFirst "e" ([] ++ rE :: []) = [] ++ { rE with done := !rE.done } :: []) :=
  ⟨by decide, by decide, edit_toggle_frame "e" [' ', 'y', ' '] [] [] rE (by decide) (by decide)⟩

theorem findIdx?_bound {α : Type} (p : α → Bool) :
    ∀ (l : List α) (j i : Nat), List.findIdx? p l j = some i → j ≤ i ∧ i < j + l.length
  | [], j, i, h => by rw [List.findIdx?_nil] at h; cases h
  | x :: xs, j, i, h => by
    rw [List.findIdx?_cons] at h
    by_cases hp : p x = true
    · rw [if_pos hp] at h
      cases h
      simp only [List.length_cons]
      omega
    · rw [if_neg hp] at h
      have := findIdx?_bound p xs (j + 1) i h
      simp only [List.length_cons]
      omega

/-- C10: asymmetry of stale-focus movement — over a non-empty selectable
list, when the focus position lookup fails (`current_pos = -1`), KEY_DOWN
jumps to the first entry while KEY_UP leaves the state unchanged; when the
lookup succeeds, each key moves exactly one entry, clamped (not wrapped) at
the two ends. -/
theorem move_focus_behavior (todos : List Rec) (collapsed : List Str) (hide : Bool) (s : Sel)
    (hne : build_selectable_items todos collapsed hide ≠ []) :
    ((build_selectable_items todos collapsed hide).findIdx? (entryMatches todos s) = none →
      (∃ e, (build_selectable_items todos collapsed hide).get? 0 = some e ∧
        moveDown todos collapsed hide s = applyEntry todos s e) ∧
      moveUp todos collapsed hide s = s) ∧
    (∀ p,
      (build_selectable_items todos collapsed hide).findIdx? (entryMatches todos s) = some p →
      (p + 1 < (build_selectable_items todos collapsed hide).length →
        ∃ e, (build_selectable_items todos collapsed hide).get? (p + 1) = some e ∧
          moveDown todos collapsed hide s = applyEntry todos s e) ∧
      (p + 1 = (build_selectable_items todos collapsed hide).length →
        moveDown todos collapsed hide s = s) ∧
      (0 < p →
        ∃ e, (build_selectable_items todos collapsed hide).get? (p - 1) = some e ∧
          moveUp todos collapsed hide s = applyEntry todos s e) ∧
      (p = 0 → moveUp todos collapsed hide s = s)) := by
  have htodos : todos ≠ [] := by
    intro h
    subst h
    exact hne rfl
  have hlen : 0 < (build_selectable_items todos collapsed hide).length :=
    List.length_pos.mpr hne
  constructor
  · intro hn
    have hcpos : currentPos todos (build_selectable_items todos collapsed hide) s = -1 := by
      unfold currentPos
      rw [hn]
    constructor
    · obtain ⟨e, he⟩ : ∃ e, (build_selectable_items todos collapsed hide).get? 0 = some e :=
        ⟨_, List.get?_eq_get hlen⟩
      refine ⟨e, he, ?_⟩
      unfold moveDown
      rw [if_neg htodos, if_neg hne, hcpos]
      rw [if_pos (by omega :
        (-1 : Int) < ((build_selectable_items todos collapsed hide).length : Int) - 1)]
      rw [show ((-1 : Int) + 1).toNat = 0 from rfl, he]
    · unfold moveUp
      rw [if_neg htodos, if_neg hne, hcpos]
      rw [if_neg (by omega : ¬((-1 : Int) > 0))]
  · intro p hp
    have hcpos : currentPos todos (build_selectable_items todos collapsed hide) s = (p : Int) := by
      unfold currentPos
      rw [hp]
    have hbound := findIdx?_bound (entryMatches todos s)
      (build_selectable_items todos collapsed hide) 0 p hp
    refine ⟨fun hlt => ?_, fun heq => ?_, fun hpos => ?_, fun h0 => ?_⟩
    · refine ⟨_, List.get?_eq_get hlt, ?_⟩
      unfold moveDown
      rw [if_neg htodos, if_neg hne, hcpos]
      rw [if_pos (by omega :
        ((p : Int) < ((build_selectable_items todos collapsed hide).length : Int) - 1))]
      rw [show ((p : Int) + 1).toNat = p + 1 from by omega, List.get?_eq_get hlt]
    · unfold moveDown
      rw [if_neg htodos, if_neg hne, hcpos]
      rw [if_neg (by omega :
        ¬((p : Int) < ((build_selectable_items todos collapsed hide).length : Int) - 1))]
    · have hplt : p - 1 < (build_selectable_items todos collapsed hide).length := by omega
      refine ⟨_, List.get?_eq_get hplt, ?_⟩
      unfold moveUp
      rw [if_neg htodos, if_neg hne, hcpos]
      rw [if_pos (by omega : (p : Int) > 0)]
      rw [show ((p : Int) - 1).toNat = p - 1 from by omega, List.get?_eq_get hplt]
    · unfold moveUp
      rw [if_neg htodos, if_neg hne, hcpos]
      rw [if_neg (by omega : ¬((p : Int) > 0))]

/-- Witness for C10: with a stale focus id over `[rA, rB]`, KEY_DOWN selects
the first entry while KEY_UP changes nothing. -/
theorem move_focus_behavior_witness :
    (build_selectable_items [rA, rB] [] false ≠ []) ∧
      ((build_selectable_items [rA, rB] [] false).findIdx?
        (entryMatches [rA, rB] selStale) = none) ∧
      ((∃ e, (build_selectable_items [rA, rB] [] false).get? 0 = some e ∧
          moveDown [rA, rB] [] false selStale = applyEntry [rA, rB] selStale e) ∧
        moveUp [rA, rB] [] false selStale = selStale) :=
  ⟨by decide, by decide,
    (move_focus_behavior [rA, rB] [] false selStale (by decide)).1 (by decide)⟩

/-- The bucketing loop as a fold of `addEntry` over the surviving
`(index, group)` pairs. -/
def specFold (ps : List (Nat × Str)) (acc : List (Str × List Nat)) : List (Str × List Nat) :=
  ps.foldl (fun a p => addEntry p.2 p.1 a) acc

theorem buildGroups_eq_specFold (hide : Bool) :
    ∀ (l : List Rec) (i : Nat) (acc : List (Str × List Nat)),
      buildGroups hide i l acc = specFold (keptPairs hide i l) acc
  | [], _, _ => rfl
  | r :: rs, i, acc => by
    by_cases hd : hide && r.done
    · simp only [buildGroups, keptPairs, if_pos hd]
      exact buildGroups_eq_specFold hide rs (i + 1) acc
    · simp only [buildGroups, keptPairs, if_neg hd]
      exact buildGroups_eq_specFold hide rs (i + 1) (addEntry (get_todo_group_task r.task) i acc)

/-- The ordered association list of buckets described by the spec: groups in
first-occurrence order, each paired with the indices that carry it. -/
def bucketsOf (ps : List (Nat × Str)) : List (Str × List Nat) :=
  (firstOccurs [] (ps.map Prod.snd)).map (fun g => (g, bucketIdx g ps))

theorem firstOccurs_mem : ∀ (l seen : List Str) (x : Str),
    x ∈ firstOccurs seen l ↔ x ∈ l ∧ x ∉ seen
  | [], seen, x => by simp [firstOccurs]
  | g :: gs, seen, x => by
    by_cases hg : g ∈ seen
    · rw [show firstOccurs seen (g :: gs) = firstOccurs seen gs from by
        simp only [firstOccurs, if_pos hg]]
      rw [firstOccurs_mem gs seen x, List.mem_cons]
      constructor
      · rintro ⟨hx, hns⟩
        exact ⟨Or.inr hx, hns⟩
      · rintro ⟨rfl | hx, hns⟩
        · exact absurd hg hns
        · exact ⟨hx, hns⟩
    · rw [show firstOccurs seen (g :: gs) = g :: firstOccurs (g :: seen) gs from by
        simp only [firstOccurs, if_neg hg]]
      constructor
      · intro hx
        rcases List.mem_cons.mp hx with rfl | hx
        · exact ⟨List.mem_cons_self _ _, hg⟩
        · obtain ⟨h1, h2⟩ := (firstOccurs_mem gs (g :: seen) x).mp hx
          exact ⟨List.mem_cons_of_mem _ h1, fun h => h2 (List.mem_cons_of_mem _ h)⟩
      · rintro ⟨hx, hns⟩
        by_cases hxg : x = g
        · subst hxg
          exact List.mem_cons_self _ _
        · rcases List.mem_cons.mp hx with h | h
          · exact absurd h hxg
          · refine List.mem_cons_of_mem _ ((firstOccurs_mem gs (g :: seen) x).mpr ⟨h, ?_⟩)
            intro hh
            rcases List.mem_cons.mp hh with h' | h'
            · exact hxg h'
            · exact hns h'

theorem firstOccurs_nodup : ∀ (l seen : List Str), (firstOccurs seen l).Nodup
  | [], _ => List.nodup_nil
  | g :: gs, seen => by
    by_cases hg : g ∈ seen
    · rw [show firstOccurs seen (g :: gs) = firstOccurs seen gs from by
        simp only [firstOccurs, if_pos hg]]
      exact firstOccurs_nodup gs seen
    · rw [show firstOccurs seen (g :: gs) = g :: firstOccurs (g :: seen) gs from by
        simp only [firstOccurs, if_neg hg]]
      refine List.Nodup.cons ?_ (firstOccurs_nodup gs (g :: seen))
      intro hmem
      exact ((firstOccurs_mem gs (g :: seen) g).mp hmem).2 (List.mem_cons_self _ _)

theorem firstOccurs_append_last : ∀ (l seen : List Str) (g : Str),
    firstOccurs seen (l ++ [g]) =
      firstOccurs seen l ++ (if g ∈ seen ∨ g ∈ l then [] else [g])
  | [], seen, g => by
    by_cases hg : g ∈ seen
    · simp [firstOccurs, hg]
    · simp [firstOccurs, hg]
  | x :: xs, seen, g => by
    by_cases hx : x ∈ seen
    · rw [show (x :: xs) ++ [g] = x :: (xs ++ [g]) from rfl]
      rw [show firstOccurs seen (x :: (xs ++ [g])) = firstOccurs seen (xs ++ [g]) from by
        simp only [firstOccurs, if_pos hx]]
      rw [show firstOccurs seen (x :: xs) = firstOccurs seen xs from by
        simp only [firstOccurs, if_pos hx]]
      rw [firstOccurs_append_last xs seen g]
      congr 1
      by_cases hgs : g ∈ seen ∨ g ∈ xs
      · rw [if_pos hgs, if_pos (by
          rcases hgs with h | h
          · exact Or.inl h
          · exact Or.inr (List.mem_cons_of_mem _ h))]
      · rw [if_neg hgs, if_neg (by
          rintro (h | h)
          · exact hgs (Or.inl h)
          · rcases List.mem_cons.mp h with rfl | h
            · exact hgs (Or.inl hx)
            · exact hgs (Or.inr h))]
    · rw [show (x :: xs) ++ [g] = x :: (xs ++ [g]) from rfl]
      rw [show firstOccurs seen (x :: (xs ++ [g])) =
          x :: firstOccurs (x :: seen) (xs ++ [g]) from by
        simp only [firstOccurs, if_neg hx]]
      rw [show firstOccurs seen (x :: xs) = x :: firstOccurs (x :: seen) xs from by
        simp only [firstOccurs, if_neg hx]]
      rw [firstOccurs_append_last xs (x :: seen) g]
      rw [List.cons_append]
      congr 2
      by_cases hgs : g ∈ x :: seen ∨ g ∈ xs
      · rw [if_pos hgs, if_pos (by
          rcases hgs with h | h
          · rcases List.mem_cons.mp h with rfl | h
            · exact Or.inr (List.mem_cons_self _ _)
            · exact Or.inl h
          · exact Or.inr (List.mem_cons_of_mem _ h))]
      · rw [if_neg hgs, if_neg (by
          rintro (h | h)
          · exact hgs (Or.inl (List.mem_cons_of_mem _ h))
          · rcases List.mem_cons.mp h with rfl | h
            · exact hgs (Or.inl (List.mem_cons_self _ _))
            · exact hgs (Or.inr h))]

theorem bucketIdx_append_last (g : Str) (ps : List (Nat × Str)) (i : Nat) (h : Str) :
    bucketIdx g (ps ++ [(i, h)]) = bucketIdx g ps ++ (if h = g then [i] else []) := by
  unfold bucketIdx
  by_cases hh : h = g <;>
    simp [List.filter_append, List.filter_cons, hh]

theorem bucketIdx_eq_nil {g : Str} {ps : List (Nat × Str)} (h : g ∉ ps.map Prod.snd) :
    bucketIdx g ps = [] := by
  unfold bucketIdx
  have hf : ps.filter (fun p => p.2 = g) = [] := by
    rw [List.filter_eq_nil_iff]
    intro p hp
    simp only [decide_eq_true_eq]
    intro he
    exact h (he ▸ List.mem_map_of_mem Prod.snd hp)
  rw [hf, List.map_nil]

theorem addEntry_map_not_mem (g : Str) (i : Nat) (f : Str → List Nat) :
    ∀ (gs : List Str), g ∉ gs →
      addEntry g i (gs.map (fun h => (h, f h))) = gs.map (fun h => (h, f h)) ++ [(g, [i])]
  | [], _ => rfl
  | x :: xs, hn => by
    simp only [List.map_cons, addEntry]
    rw [if_neg (fun he => hn (by rw [← he]; exact List.mem_cons_self x xs))]
    rw [addEntry_map_not_mem g i f xs (fun h => hn (List.mem_cons_of_mem _ h))]
    rfl

theorem addEntry_map_mem (g : Str) (i : Nat) (f : Str → List Nat) :
    ∀ (gs : List Str), gs.Nodup → g ∈ gs →
      addEntry g i (gs.map (fun h => (h, f h))) =
        gs.map (fun h => (h, if h = g then f h ++ [i] else f h))
  | [], _, hmem => absurd hmem (List.not_mem_nil g)
  | x :: xs, hnd, hmem => by
    rcases List.nodup_cons.mp hnd with ⟨hxn, hnd'⟩
    simp only [List.map_cons, addEntry]
    by_cases hxg : x = g
    · rw [if_pos hxg, if_pos hxg]
      congr 1
      apply List.map_congr_left
      intro y hy
      rw [if_neg (show ¬y = g from fun he => hxn (by rw [hxg.trans he.symm]; exact hy))]
    · rw [if_neg hxg, if_neg hxg]
      rw [addEntry_map_mem g i f xs hnd' (by
        rcases List.mem_cons.mp hmem with h | h
        · exact absurd h.symm hxg
        · exact h)]

theorem addEntry_bucketsOf (g : Str) (i : Nat) (ps : List (Nat × Str)) :
    addEntry g i (bucketsOf ps) = bucketsOf (ps ++ [(i, g)]) := by
  unfold bucketsOf
  rw [List.map_append]
  rw [show List.map Prod.snd [((i : Nat), g)] = [g] from rfl]
  rw [firstOccurs_append_last]
  by_cases hmem : g ∈ ps.map Prod.snd
  · rw [if_pos (Or.inr hmem), List.append_nil]
    have hg : g ∈ firstOccurs [] (ps.map Prod.snd) :=
      (firstOccurs_mem _ _ _).mpr ⟨hmem, by simp⟩
    rw [addEntry_map_mem g i (fun h => bucketIdx h ps) _ (firstOccurs_nodup _ _) hg]
    apply List.map_congr_left
    intro h hh
    rw [bucketIdx_append_last]
    by_cases hhg : h = g
    · rw [if_pos hhg, if_pos hhg.symm]
    · rw [if_neg hhg, if_neg (fun he => hhg he.symm), List.append_nil]
  · rw [if_neg (by
      rintro (h | h)
      · simp at h
      · exact hmem h)]
    rw [List.map_append]
    have hg : g ∉ firstOccurs [] (ps.map Prod.snd) := fun hh =>
      hmem ((firstOccurs_mem _ _ _).mp hh).1
    rw [addEntry_map_not_mem g i (fun h => bucketIdx h ps) _ hg]
    congr 1
    · apply List.map_congr_left
      intro h hh
      have hhg : h ≠ g := fun he =>
        hmem (he ▸ ((firstOccurs_mem _ _ _).mp hh).1)
      rw [bucketIdx_append_last, if_neg (fun he => hhg he.symm), List.append_nil]
    · rw [show List.map (fun g' => (g', bucketIdx g' (ps ++ [(i, g)]))) [g] =
          [(g, bucketIdx g (ps ++ [(i, g)]))] from rfl]
      rw [bucketIdx_append_last, bucketIdx_eq_nil hmem, if_pos rfl, List.nil_append]

theorem specFold_bucketsOf : ∀ (ps qs : List (Nat × Str)),
    specFold ps (bucketsOf qs) = bucketsOf (qs ++ ps)
  | [], qs => by
    rw [List.append_nil]
    rfl
  | p :: ps, qs => by
    obtain ⟨i, g⟩ := p
    show specFold ps (addEntry g i (bucketsOf qs)) = _
    rw [addEntry_bucketsOf, specFold_bucketsOf ps (qs ++ [(i, g)])]
    rw [List.append_assoc]
    rfl

theorem emitEntries_map (collapsed : List Str) (f : Str → List Nat) :
    ∀ (gs : List Str),
      emitEntries collapsed (gs.map (fun g => (g, f g))) =
        gs.foldr (fun g acc => emitOne collapsed g (f g) ++ acc) []
  | [] => rfl
  | g :: gs => by
    simp only [List.map_cons, emitEntries, List.foldr_cons]
    rw [emitEntries_map collapsed f gs]

/-- C7: the Group Model output — `build_selectable_items` equals its
specification: drop completed items when hiding, bucket the survivors by
group in first-occurrence order without re-sorting, then emit one header per
collapsed named group and one todo entry per member otherwise, the ungrouped
bucket always emitting its members. -/
theorem build_selectable_items_spec (todos : List Rec) (collapsed : List Str) (hide : Bool) :
    build_selectable_items todos collapsed hide = selectableSpec todos collapsed hide := by
  unfold build_selectable_items selectableSpec
  rw [buildGroups_eq_specFold]
  have h0 : specFold (keptPairs hide 0 todos) [] = bucketsOf (keptPairs hide 0 todos) := by
    have h := specFold_bucketsOf (keptPairs hide 0 todos) []
    simpa using h
  rw [h0]
  unfold bucketsOf
  rw [emitEntries_map collapsed (fun g => bucketIdx g (keptPairs hide 0 todos))]
